import Mathlib

/-!
# Verification of the SipHash-1-3 splittable PRNG (rust-rand-split)

Shallow embedding of the generator core found in `src/lib.rs` (module
`siprng`) and `src/siprng.rs`.  The two files contain textually identical
core code (the round sequence, `new`, `advance`, `descend`, `next_u64`,
`fill_bytes`, `reseed`, `from_seed`); they differ only in the splitting
API: `lib.rs` offers a move-based `splitn`/`branch`/`split`, while
`siprng.rs` offers a destructive `split(&mut self)`.  We embed the shared
core once and both splitting surfaces.

Machine integers (`u64`, and `usize` on the 64-bit targets this crate
assumes) are embedded as `Nat` reduced modulo `2 ^ 64` wherever the Rust
code wraps.  Mutation of `&mut self` is embedded as explicit state
passing: every operation takes the pre-state and returns the post-state
(paired with its output where the Rust method returns a value).
-/

namespace RandSplit

/-- The 64-bit modulus: all lane, counter and length arithmetic wraps here. -/
def W : Nat := 2 ^ 64

/-- Rust `u64::rotate_left`: for `x < W` and `0 < n < 64` this is the usual
64-bit left bit-rotation. -/
def rotl (x n : Nat) : Nat := ((x <<< n) ||| (x >>> (64 - n))) % W

/-- One round of the generator, from the round sequence shared verbatim by
`src/lib.rs` (lines 167-179) and `src/siprng.rs` (lines 42-54).  Operates on
the four lanes `(v0, v1, v2, v3)` with wrapping addition, rotation and XOR.
Note the last assignment reads the rotated `v0`, exactly as the source does. -/
def sipround (v0 v1 v2 v3 : Nat) : Nat × Nat × Nat × Nat :=
  let v0 := (v0 + v1) % W
  let v2 := (v2 + v3) % W
  let v1 := rotl v1 13
  let v3 := rotl v3 16
  let v1 := v1 ^^^ v0
  let v3 := v3 ^^^ v2
  let v0 := rotl v0 32
  let v2 := (v2 + v1) % W
  let v0 := (v0 + v3) % W
  let v1 := rotl v1 17
  let v3 := rotl v3 21
  let v1 := v1 ^^^ v2
  let v3 := v3 ^^^ v0
  let v2 := rotl v0 32
  (v0, v1, v2, v3)

/-- Initialization constant, `src/siprng.rs` line 56. -/
def C0 : Nat := 0x736f6d6570736575
/-- Initialization constant, `src/siprng.rs` line 57. -/
def C1 : Nat := 0x646f72616e646f6d
/-- Initialization constant, `src/siprng.rs` line 58. -/
def C2 : Nat := 0x6c7967656e657261
/-- Initialization constant, `src/siprng.rs` line 59. -/
def C3 : Nat := 0x7465646279746573

/-- The generator state `struct SipRng`: four SipHash lanes, a per-branch
counter `ctr : u64` and the split-tree depth `len : usize`. -/
structure SipRng where
  v0 : Nat
  v1 : Nat
  v2 : Nat
  v3 : Nat
  ctr : Nat
  len : Nat
  deriving DecidableEq, Repr

/-- `SipRng::new(k0, k1)`, `src/siprng.rs` lines 63-72. -/
def SipRng.new (k0 k1 : Nat) : SipRng :=
  { v0 := k0 ^^^ C0
    v1 := k1 ^^^ C1
    v2 := k0 ^^^ C2
    v3 := k1 ^^^ C3
    ctr := 0
    len := 1 }

/-- `SipRng::advance`, `src/siprng.rs` lines 86-91: `v3 ^= ctr`, one round,
`v0 ^= ctr`, then `ctr` is incremented wrapping.  `len` is untouched. -/
def SipRng.advance (g : SipRng) : SipRng :=
  let r := sipround g.v0 g.v1 g.v2 (g.v3 ^^^ g.ctr)
  { v0 := r.1 ^^^ g.ctr
    v1 := r.2.1
    v2 := r.2.2.1
    v3 := r.2.2.2
    ctr := (g.ctr + 1) % W
    len := g.len }

/-- `SipRng::descend`, `src/siprng.rs` lines 94-100: `v3 ^= i`, one round,
`v0 ^= i`, `len` incremented wrapping, `ctr` reset to 0. -/
def SipRng.descend (g : SipRng) (i : Nat) : SipRng :=
  let r := sipround g.v0 g.v1 g.v2 (g.v3 ^^^ i)
  { v0 := r.1 ^^^ i
    v1 := r.2.1
    v2 := r.2.2.1
    v3 := r.2.2.2
    ctr := 0
    len := (g.len + 1) % W }

/-- `Rng::next_u64 for SipRng`, `src/siprng.rs` lines 131-146: advance the
persistent state, then finalize on local copies of the lanes (length tag
XOR, one round, `0xff` XOR, three rounds, lane XOR-fold).  Returns the
output word and the post-state; only `advance` touched the state. -/
def SipRng.next_u64 (g : SipRng) : Nat × SipRng :=
  let g := g.advance
  let len := (g.len <<< 56) % W
  let r1 := sipround g.v0 g.v1 g.v2 (g.v3 ^^^ len)
  let v0 := r1.1 ^^^ len
  let r2 := sipround v0 r1.2.1 (r1.2.2.1 ^^^ 0xff) r1.2.2.2
  let r3 := sipround r2.1 r2.2.1 r2.2.2.1 r2.2.2.2
  let r4 := sipround r3.1 r3.2.1 r3.2.2.1 r3.2.2.2
  (r4.1 ^^^ r4.2.1 ^^^ r4.2.2.1 ^^^ r4.2.2.2, g)

/-- The state transition of one `next_u64` call, discarding the output. -/
def SipRng.nextState (g : SipRng) : SipRng := (g.next_u64).2

/-- The list of the next `n` output words of `g` (successive `next_u64`
calls, threading the state). -/
def SipRng.outputs (g : SipRng) : Nat → List Nat
  | 0 => []
  | n + 1 =>
    let p := g.next_u64
    p.1 :: p.2.outputs n

/-- `SeedableRng::reseed for SipRng`, `src/siprng.rs` lines 168-175:
overwrites all six fields from the seed; the previous state is dead. -/
def SipRng.reseed (_g : SipRng) (seed : Nat × Nat) : SipRng :=
  { v0 := seed.1 ^^^ C0
    v1 := seed.2 ^^^ C1
    v2 := seed.1 ^^^ C2
    v3 := seed.2 ^^^ C3
    len := 1
    ctr := 0 }

/-- `SeedableRng::from_seed for SipRng`, `src/siprng.rs` lines 177-180. -/
def SipRng.from_seed (seed : Nat × Nat) : SipRng :=
  SipRng.new seed.1 seed.2

/-- The first `k` little-endian bytes of a 64-bit word: byte `i` is bits
`8*i..8*i+7`.  Models `mem::transmute::<u64, [u8; 8]>` on the crate's
little-endian targets, truncated to the chunk length by the copy loop
`for i in 0..chunk.len() ... chunk[i] = block[i]`. -/
def leBytes (w k : Nat) : List Nat :=
  (List.range k).map fun i => (w >>> (8 * i)) % 256

/-- `fill_bytes(dest)` for a destination buffer of length `n`, from
`src/siprng.rs` lines 154-163: `dest.chunks_mut(8)` yields chunks of
length `min 8 (remaining)`, every chunk draws one `next_u64` and copies
its first `chunk.len()` little-endian bytes.  The buffer is embedded as
the returned byte list (length `n`), paired with the post-state. -/
def SipRng.fill_bytes (g : SipRng) (n : Nat) : List Nat × SipRng :=
  if n = 0 then ([], g)
  else
    let p := g.next_u64
    let rest := p.2.fill_bytes (n - min 8 n)
    (leBytes p.1 (min 8 n) ++ rest.1, rest.2)
termination_by n
decreasing_by omega

/-! ## The splitting surfaces

`src/lib.rs` module `splittable`: trait `SplittableRng` with a move-based
`splitn` and a default two-way `split`; trait `SplitRng` with `branch`.
`src/siprng.rs`: trait implementation `SplitRng for SipRng` with a
destructive `split(&mut self)`. -/

/-- `struct SipRngSplit(SipRng)`, `src/lib.rs` line 164: an immutable
snapshot of the generator at the branching point. -/
structure SipRngSplit where
  inner : SipRng
  deriving DecidableEq, Repr

/-- `SplitRng::branch for SipRngSplit`, `src/lib.rs` lines 219-223: clone
the captured state and descend along `i` (`i as u64`).  Takes the split by
value (Rust: by shared reference), so it cannot mutate it. -/
def SipRngSplit.branch (s : SipRngSplit) (i : Nat) : SipRng :=
  let r := s.inner
  r.descend i

/-- `SplittableRng::splitn for SipRng`, `src/lib.rs` lines 229-231: moves
the generator into a split object. -/
def SipRng.splitn (g : SipRng) : SipRngSplit := ⟨g⟩

/-- The default `SplittableRng::split`, `src/lib.rs` lines 60-63:
`(splits.branch(0), splits.branch(1))` off `splits = self.splitn()`. -/
def SipRng.split (g : SipRng) : SipRng × SipRng :=
  let splits := g.splitn
  (splits.branch 0, splits.branch 1)

namespace SplitRng

/-- The destructive `SplitRng::split for SipRng`, `src/siprng.rs` lines
115-120: clone a child, descend the parent along 0, descend the child
along 1, return the child.  Embedded state-in/state-out: the result is
(parent post-state, returned child). -/
def split (g : SipRng) : SipRng × SipRng :=
  let child := g
  let g := g.descend 0
  let child := child.descend 1
  (g, child)

end SplitRng

/-- `SplitRand for Box<Fn(A) -> B>`, `src/lib.rs` lines 105-120: the
random deterministic function obtained from a split.  The closure clones
the split and maps `arg` to a `B` derived from `split.branch(hash(&arg))`.
The ambient hash (std `SipHasher`, fixed key) and the `Rand` derivation of
`B` live outside this crate; they enter as the parameters `hash` and
`derive`, fixed for the lifetime of the function. -/
def SplitRand.rand {A B : Type} (hash : A → Nat) (derive : SipRng → B)
    (split : SipRngSplit) : A → B :=
  fun arg => derive (split.branch (hash arg))

/-! ## Reachability

The only operations that mutate a live generator are `advance` (called
from the output path) and `descend` (called from the splitting path); a
reachable state is a seed state followed by any such sequence. -/

/-- One mutating step of a generator. -/
inductive Op where
  | advance : Op
  | descend : Nat → Op
  deriving DecidableEq, Repr

/-- Apply one step. -/
def SipRng.applyOp (g : SipRng) : Op → SipRng
  | Op.advance => g.advance
  | Op.descend i => g.descend i

/-- Apply a sequence of steps, oldest first. -/
def SipRng.applyOps (g : SipRng) (ops : List Op) : SipRng :=
  ops.foldl SipRng.applyOp g

/-- The number of `descend` steps in a sequence. -/
def descCount : List Op → Nat
  | [] => 0
  | Op.advance :: t => descCount t
  | Op.descend _ :: t => 1 + descCount t

/-! ## Spec-side transcriptions

The following definitions are transcribed from the WORDS of the
specification (sections 4.1-4.3), not from the source, so that the code
embeddings above can be compared against them. -/

/-- Transcribed from spec section 4.1: the contractual round sequence.
First half: `v0 += v1; v2 += v3; v1 = rotl(v1,13); v3 = rotl(v3,16);
v1 ^= v0; v3 ^= v2; v0 = rotl(v0,32)`.  Second half: `v2 += v1;
v0 += v3; v1 = rotl(v1,17); v3 = rotl(v3,21); v1 ^= v2; v3 ^= v0;
v2 = rotl(v0,32)` — the final assignment deliberately reads `v0`. -/
def siproundSpec (v0 v1 v2 v3 : Nat) : Nat × Nat × Nat × Nat :=
  let a0 := (v0 + v1) % W
  let a2 := (v2 + v3) % W
  let a1 := rotl v1 13 ^^^ a0
  let a3 := rotl v3 16 ^^^ a2
  let b0 := rotl a0 32
  let c2 := (a2 + a1) % W
  let c0 := (b0 + a3) % W
  let c1 := rotl a1 17 ^^^ c2
  let c3 := rotl a3 21 ^^^ c0
  (c0, c1, rotl c0 32, c3)

/-- Transcribed from spec section 4.2, `advance(G)`: `v3 ^= ctr`; one
SipRound; `v0 ^= ctr`; `ctr` incremented wrapping mod `2 ^ 64`; `len`
unchanged. -/
def advanceSpec (g : SipRng) : SipRng :=
  let r := siproundSpec g.v0 g.v1 g.v2 (g.v3 ^^^ g.ctr)
  { v0 := r.1 ^^^ g.ctr
    v1 := r.2.1
    v2 := r.2.2.1
    v3 := r.2.2.2
    ctr := (g.ctr + 1) % W
    len := g.len }

/-- Transcribed from spec section 4.2, `descend(G, i)`: `v3 ^= i`; one
SipRound; `v0 ^= i`; `len` incremented wrapping; `ctr` reset to 0. -/
def descendSpec (g : SipRng) (i : Nat) : SipRng :=
  let r := siproundSpec g.v0 g.v1 g.v2 (g.v3 ^^^ i)
  { v0 := r.1 ^^^ i
    v1 := r.2.1
    v2 := r.2.2.1
    v3 := r.2.2.2
    ctr := 0
    len := (g.len + 1) % W }

/-- Transcribed from spec section 4.3, steps 3-6: on local copies of the
lanes of `g`, let `L = len << 56` (wrapping); `v3 ^= L`; one SipRound;
`v0 ^= L`; `v2 ^= 0xff`; three SipRounds; output the XOR-fold of the four
lanes.  Pure: returns only the output word. -/
def finalizeSpec (g : SipRng) : Nat :=
  let L := (g.len <<< 56) % W
  let r1 := siproundSpec g.v0 g.v1 g.v2 (g.v3 ^^^ L)
  let r2 := siproundSpec (r1.1 ^^^ L) r1.2.1 (r1.2.2.1 ^^^ 0xff) r1.2.2.2
  let r3 := siproundSpec r2.1 r2.2.1 r2.2.2.1 r2.2.2.2
  let r4 := siproundSpec r3.1 r3.2.1 r3.2.2.1 r3.2.2.2
  r4.1 ^^^ r4.2.1 ^^^ r4.2.2.1 ^^^ r4.2.2.2

/-! ## Claim theorems -/

/-- C1: one SipRound of the code performs exactly the sequence of spec
section 4.1 on every four lanes, and its final `v2` lane comes from the
rotation of the final `v0` lane (`v2 = rotl(v0, 32)`), the deliberate
deviation from canonical SipHash. -/
theorem sipround_matches_spec (v0 v1 v2 v3 : Nat) :
    sipround v0 v1 v2 v3 = siproundSpec v0 v1 v2 v3 ∧
    (sipround v0 v1 v2 v3).2.2.1 = rotl (sipround v0 v1 v2 v3).1 32 :=
  ⟨rfl, rfl⟩

/-- C2: `advance` performs exactly `v3 ^= ctr`, one SipRound, `v0 ^= ctr`,
wrapping `ctr` increment with `len` unchanged; `descend i` performs
exactly `v3 ^= i`, one SipRound, `v0 ^= i`, wrapping `len` increment and
`ctr := 0` — as transcribed from spec section 4.2. -/
theorem advance_descend_match_spec (g : SipRng) (i : Nat) :
    g.advance = advanceSpec g ∧ (g.advance).len = g.len ∧
    g.descend i = descendSpec g i :=
  ⟨rfl, rfl, rfl⟩

/-- C3: `next_u64` advances the persistent state and computes the output
word by the finalization of spec section 4.3 on local lane copies: the
returned word is `finalizeSpec` of the advanced state and the persistent
post-state is exactly `advance` of the pre-state — finalization persists
nothing. -/
theorem next_u64_advance_then_finalize (g : SipRng) :
    g.next_u64 = (finalizeSpec g.advance, g.advance) :=
  rfl

/-- C4: `branch i` on the split captured from `G` is a fresh generator
equal to `descend` of the captured state along `i` (the captured state is
cloned, never mutated, so repeated calls agree), and the two-way `split`
is exactly `(S.branch(0), S.branch(1))` for `S = splitn(G)`. -/
theorem splitn_branch_split (g : SipRng) (i : Nat) :
    (g.splitn).branch i = g.descend i ∧
    (g.splitn).branch i = (g.splitn).branch i ∧
    g.split = ((g.splitn).branch 0, (g.splitn).branch 1) :=
  ⟨rfl, rfl, rfl⟩

/-- C5: `reseed` overwrites all six fields exactly as seeding does: the
reseeded state equals `from_seed` of the same seed field-for-field
(lanes `k0^C0, k1^C1, k0^C2, k1^C3`, `ctr = 0`, `len = 1`), hence every
output stream drawn after `reseed` coincides with the stream of a fresh
`from_seed`, for any number of draws. -/
theorem reseed_matches_from_seed (g : SipRng) (s : Nat × Nat) :
    g.reseed s = SipRng.from_seed s ∧
    g.reseed s = { v0 := s.1 ^^^ C0, v1 := s.2 ^^^ C1, v2 := s.1 ^^^ C2,
                   v3 := s.2 ^^^ C3, ctr := 0, len := 1 } ∧
    ∀ n : Nat, (g.reseed s).outputs n = (SipRng.from_seed s).outputs n :=
  ⟨rfl, rfl, fun _ => rfl⟩

/-- C8: a random function taken off a split is `arg ↦ derive(branch(S,
hash(arg)))` for the fixed ambient hash and derivation; it is
deterministic (equal results on repeated calls), and two functions taken
off identically-seeded generators agree on every input. -/
theorem split_rand_deterministic {A B : Type} (hash : A → Nat)
    (derive : SipRng → B) (ga gb : SipRng) (h : ga = gb) (x : A) :
    SplitRand.rand hash derive ga.splitn x = derive (ga.descend (hash x)) ∧
    SplitRand.rand hash derive ga.splitn x
      = SplitRand.rand hash derive ga.splitn x ∧
    SplitRand.rand hash derive ga.splitn x
      = SplitRand.rand hash derive gb.splitn x := by
  subst h
  exact ⟨rfl, rfl, rfl⟩

/-- C8 witness: instantiated at the seed `(0, 0)`, hash `id` and the
derivation reading the `v0` lane, on the input `5`. -/
theorem split_rand_deterministic_witness :
    SipRng.from_seed (0, 0) = SipRng.from_seed (0, 0) ∧
    SplitRand.rand id SipRng.v0 (SipRng.from_seed (0, 0)).splitn 5
      = SipRng.v0 ((SipRng.from_seed (0, 0)).descend 5) :=
  ⟨rfl, (split_rand_deterministic id SipRng.v0 (SipRng.from_seed (0, 0))
    (SipRng.from_seed (0, 0)) rfl 5).1⟩

/-- The depth after a sequence of steps: `advance` keeps `len`, `descend`
bumps it wrapping mod `2 ^ 64`, so running a sequence adds its descend
count, modulo `2 ^ 64`. -/
theorem applyOps_len (ops : List Op) : ∀ g : SipRng, g.len < W →
    (g.applyOps ops).len = (g.len + descCount ops) % W := by
  induction ops with
  | nil =>
    intro g h
    simpa [SipRng.applyOps, descCount] using (Nat.mod_eq_of_lt h).symm
  | cons o t ih =>
    intro g h
    cases o with
    | advance =>
      have hstep : g.applyOps (Op.advance :: t) = (g.advance).applyOps t := rfl
      have hlen : (g.advance).len = g.len := rfl
      rw [hstep, ih g.advance (by rw [hlen]; exact h), hlen]
      rfl
    | descend i =>
      have hstep : g.applyOps (Op.descend i :: t) = (g.descend i).applyOps t := rfl
      have hlen : (g.descend i).len = (g.len + 1) % W := rfl
      have hW : 0 < W := by norm_num [W]
      rw [hstep, ih (g.descend i) (by rw [hlen]; exact Nat.mod_lt _ hW), hlen,
        Nat.mod_add_mod]
      have : g.len + 1 + descCount t = g.len + descCount (Op.descend i :: t) := by
        show g.len + 1 + descCount t = g.len + (1 + descCount t)
        omega
      rw [this]

/-- Descend count of a constant descend sequence. -/
theorem descCount_replicate (m i : Nat) :
    descCount (List.replicate m (Op.descend i)) = m := by
  induction m with
  | zero => rfl
  | succ m ih =>
    rw [List.replicate_succ]
    show 1 + descCount (List.replicate m (Op.descend i)) = m + 1
    rw [ih]
    omega

/-- C6 counterexample: `len` wraps, so the state reached from seed
`(0, 0)` by `2 ^ 64 - 1` descends along index 0 has `len = 0`, violating
the claimed invariant `len ≥ 1` on a reachable state. -/
theorem len_invariant_fails :
    ¬ 1 ≤ ((SipRng.from_seed (0, 0)).applyOps
        (List.replicate (W - 1) (Op.descend 0))).len := by
  have h1 : (SipRng.from_seed (0, 0)).len = 1 := rfl
  have hW : 1 < W := by norm_num [W]
  have h := applyOps_len (List.replicate (W - 1) (Op.descend 0))
    (SipRng.from_seed (0, 0)) (by rw [h1]; exact hW)
  rw [h1, descCount_replicate] at h
  have hw : (1 + (W - 1)) % W = 0 := by
    have : 1 + (W - 1) = W := by omega
    rw [this, Nat.mod_self]
  rw [h, hw]
  omega

/-- C6 amended: for every state reachable from seeding by a sequence of
`advance` and `descend` steps, `len` equals `1` plus the number of
descends, modulo `2 ^ 64` (hence `len ≥ 1` unless the descend count is
congruent to `2 ^ 64 - 1`), and `ctr` equals 0 immediately after any
seed, reseed, or descend. -/
theorem reachable_len_ctr (s : Nat × Nat) (ops : List Op) (g : SipRng)
    (i : Nat) :
    ((SipRng.from_seed s).applyOps ops).len = (1 + descCount ops) % W ∧
    (SipRng.from_seed s).ctr = 0 ∧ (g.reseed s).ctr = 0 ∧
    (g.descend i).ctr = 0 := by
  refine ⟨?_, rfl, rfl, rfl⟩
  exact applyOps_len ops (SipRng.from_seed s) (by norm_num [SipRng.from_seed, SipRng.new, W])

/-- Base case of `fill_bytes`: an empty buffer triggers no draw. -/
theorem fill_bytes_zero (g : SipRng) : g.fill_bytes 0 = ([], g) := by
  unfold SipRng.fill_bytes
  simp

/-- Unfolding of `fill_bytes` on a non-empty buffer: one `next_u64` draw
fills the first chunk of `min 8 n` bytes and the rest recurses. -/
theorem fill_bytes_pos (g : SipRng) (n : Nat) (h : n ≠ 0) :
    g.fill_bytes n
      = (leBytes (g.next_u64).1 (min 8 n)
          ++ ((g.next_u64).2.fill_bytes (n - min 8 n)).1,
        ((g.next_u64).2.fill_bytes (n - min 8 n)).2) := by
  conv_lhs => unfold SipRng.fill_bytes
  simp [h]

/-- A word has `k` little-endian bytes. -/
theorem leBytes_length (w k : Nat) : (leBytes w k).length = k := by
  simp [leBytes]

/-- Taking a prefix of the little-endian bytes keeps the low bytes. -/
theorem leBytes_take (w n k : Nat) (h : n ≤ k) :
    (leBytes w k).take n = leBytes w n := by
  unfold leBytes
  rw [← List.map_take, List.take_range, Nat.min_eq_left h]

/-- Unfolding of `outputs`: the head draw followed by the tail draws. -/
theorem outputs_succ (g : SipRng) (n : Nat) :
    g.outputs (n + 1) = (g.next_u64).1 :: ((g.next_u64).2.outputs n) := rfl

/-- The full behavior of `fill_bytes` on a buffer of length `n`: the bytes
are the first `n` bytes of the concatenated 8-byte little-endian blocks of
the next `⌈n/8⌉` output words, the post-state is the one after `⌈n/8⌉`
`next_u64` draws, and exactly `n` bytes are written. -/
theorem fill_bytes_spec (n : Nat) : ∀ g : SipRng,
    (g.fill_bytes n).1
      = (((g.outputs ((n + 7) / 8)).map fun w => leBytes w 8).flatten.take n) ∧
    (g.fill_bytes n).2 = SipRng.nextState^[(n + 7) / 8] g ∧
    (g.fill_bytes n).1.length = n := by
  induction n using Nat.strong_induction_on with
  | _ n ih =>
    intro g
    by_cases h0 : n = 0
    · subst h0
      simp [fill_bytes_zero, SipRng.outputs]
    · by_cases h8 : 8 ≤ n
      · have hmin : min 8 n = 8 := by omega
        have hk : (n + 7) / 8 = (n - 8 + 7) / 8 + 1 := by omega
        have ihm := ih (n - 8) (by omega) (g.next_u64).2
        refine ⟨?_, ?_, ?_⟩
        · rw [fill_bytes_pos g n h0, hmin, hk, outputs_succ, List.map_cons,
            List.flatten_cons, List.take_append_eq_append_take, leBytes_length,
            List.take_of_length_le (by rw [leBytes_length]; omega), ihm.1]
        · rw [fill_bytes_pos g n h0, hmin, hk, Function.iterate_succ_apply]
          exact ihm.2.1
        · rw [fill_bytes_pos g n h0, hmin]
          simp only [List.length_append, leBytes_length, ihm.2.2]
          omega
      · have hmin : min 8 n = n := by omega
        have hk : (n + 7) / 8 = 1 := by omega
        refine ⟨?_, ?_, ?_⟩
        · rw [fill_bytes_pos g n h0, hmin, Nat.sub_self, fill_bytes_zero, hk,
            outputs_succ]
          show leBytes (g.next_u64).1 n ++ [] = _
          rw [List.append_nil]
          simp only [SipRng.outputs, List.map_cons, List.map_nil,
            List.flatten_cons, List.flatten_nil, List.append_nil]
          rw [leBytes_take _ n 8 (by omega)]
        · rw [fill_bytes_pos g n h0, hmin, Nat.sub_self, fill_bytes_zero, hk,
            Function.iterate_one]
          rfl
        · rw [fill_bytes_pos g n h0, hmin, Nat.sub_self, fill_bytes_zero]
          simp [leBytes_length]

/-- C7: `fill_bytes` on a buffer of length `n` writes exactly the first
`n` bytes of the concatenation of the 8-byte little-endian
representations of the successive `next_u64` outputs — so a final partial
block keeps the low bytes of the final word, in little-endian order, and
discards its unused high bytes. -/
theorem fill_bytes_little_endian (g : SipRng) (n : Nat) :
    (g.fill_bytes n).1
      = (((g.outputs ((n + 7) / 8)).map fun w => leBytes w 8).flatten.take n) ∧
    (g.fill_bytes n).1.length = n :=
  ⟨(fill_bytes_spec n g).1, (fill_bytes_spec n g).2.2⟩

/-- C10: `fill_bytes` on a buffer of length `n` draws `next_u64` exactly
`⌈n/8⌉` times, so its post-state is the state after `⌈n/8⌉` draws; an
empty buffer leaves the generator unchanged, and two buffer lengths with
the same `⌈n/8⌉` leave it in identical states. -/
theorem fill_bytes_state_frame (g : SipRng) (n m : Nat)
    (h : (n + 7) / 8 = (m + 7) / 8) :
    (g.fill_bytes n).2 = SipRng.nextState^[(n + 7) / 8] g ∧
    (g.fill_bytes 0).2 = g ∧
    (g.fill_bytes n).2 = (g.fill_bytes m).2 := by
  refine ⟨(fill_bytes_spec n g).2.1, by rw [fill_bytes_zero], ?_⟩
  rw [(fill_bytes_spec n g).2.1, (fill_bytes_spec m g).2.1, h]

/-- C10 witness: buffers of lengths 3 and 8 both need one draw, so they
leave the generator seeded from `(0, 0)` in the same state. -/
theorem fill_bytes_state_frame_witness :
    ((3 + 7) / 8 = (8 + 7) / 8) ∧
    ((SipRng.from_seed (0, 0)).fill_bytes 3).2
      = ((SipRng.from_seed (0, 0)).fill_bytes 8).2 :=
  ⟨by decide,
    (fill_bytes_state_frame (SipRng.from_seed (0, 0)) 3 8 (by decide)).2.2⟩

/-- C9: the destructive `split` of `src/siprng.rs` leaves the parent at
`descend(G, 0)` and returns a child equal to `descend(G, 1)`, so the pair
(parent after, child) is state-for-state the pair `(S.branch(0),
S.branch(1))` that the non-destructive `splitn` of `src/lib.rs` produces
from the same pre-state. -/
theorem split_presentations_agree (g : SipRng) :
    SplitRng.split g = (g.descend 0, g.descend 1) ∧
    SplitRng.split g = ((g.splitn).branch 0, (g.splitn).branch 1) :=
  ⟨rfl, rfl⟩

end RandSplit
